import Mathlib

/-!
Shallow embedding of `src/app.py` (single-file store-inventory manager).

The program keeps a single SQLite table of products and offers CSV import
(`add_csv`), duplicate reconciliation (`check_duplicates`), interactive
add/update (`add_product`) and CSV export (`backup_db`).  The embedding
below follows the source function by function:

* the persistent store is a `List Product` in insertion (rowid) order;
* SQLAlchemy `one_or_none()` raises `MultipleResultsFound` on two or more
  matches; every operation that can raise an uncaught Python exception is
  modelled as `Except Unit _`, with `.error ()` standing for the raised
  exception (the transaction is then never committed);
* Python string/number primitives (`int(...)`, `str.split`, `str.lstrip`,
  `datetime`, `strftime`, float formatting) are modelled on `List Char`
  as documented at each definition.
-/

namespace StoreInventory

/-- Calendar timestamp as stored in the `Last Updated` column.  Python
`datetime` values (always constructed at midnight here) compare
lexicographically by (year, month, day). -/
structure PyDate where
  year : Nat
  month : Nat
  day : Nat
deriving DecidableEq, Repr

/-- Lexicographic strict order on dates: the comparison Python performs on
`datetime` objects in `check_duplicates`. -/
def PyDate.blt (a b : PyDate) : Bool :=
  decide (a.year < b.year) ||
    (decide (a.year = b.year) &&
      (decide (a.month < b.month) ||
        (decide (a.month = b.month) && decide (a.day < b.day))))

/-- Row of the `products` table (class `Product` in the source).
`product_id` is the integer primary key assigned on insert. -/
structure Product where
  product_id : Nat
  product_name : String
  product_quantity : Int
  product_price : Int
  date_updated : PyDate
deriving DecidableEq, Repr

/-! ## Python string and number primitives -/

/-- Decimal value of a list of digit characters, most significant first
(the accumulator loop underlying `int(...)` on a digit string). -/
def digitsVal (cs : List Char) : Nat :=
  cs.foldl (fun a c => 10 * a + (c.toNat - '0'.toNat)) 0

/-- Nonempty and all decimal digits. -/
def isDigits (cs : List Char) : Bool :=
  !cs.isEmpty && cs.all Char.isDigit

/-- Strip leading and trailing whitespace (Python `str.strip()`, applied
implicitly by `int(...)`). -/
def stripWs (cs : List Char) : List Char :=
  ((cs.dropWhile Char.isWhitespace).reverse.dropWhile Char.isWhitespace).reverse

/-- Sign-and-digits part of Python `int(string)`, after whitespace
stripping: optional single `+`/`-` sign then a nonempty run of decimal
digits; anything else raises `ValueError` (modelled `.error ()`). -/
def pyIntCore : List Char → Except Unit Int
  | [] => .error ()
  | c :: rest =>
    if c == '-' then
      if isDigits rest then .ok (-(digitsVal rest : Int)) else .error ()
    else if c == '+' then
      if isDigits rest then .ok (digitsVal rest : Int) else .error ()
    else
      if isDigits (c :: rest) then .ok (digitsVal (c :: rest) : Int) else .error ()

/-- Models Python `int(string)`.  (PEP 515 underscore grouping and
non-ASCII decimal digits, which the program never feeds it, are not
modelled.) -/
def pyInt (cs : List Char) : Except Unit Int :=
  pyIntCore (stripWs cs)

/-- Models Python `str.split(sep)` for a single-character separator:
splits at every occurrence, keeping empty groups, so the result always
has one more group than there are separators. -/
def splitChar (sep : Char) : List Char → List (List Char)
  | [] => [[]]
  | a :: rest =>
    if a == sep then [] :: splitChar sep rest
    else
      match splitChar sep rest with
      | g :: gs => (a :: g) :: gs
      | [] => [[a]]

/-- `clean_price` from the source: `price_str.lstrip('$')`, split on `'.'`,
join the groups with `''` and parse with `int(...)`. -/
def clean_price (s : String) : Except Unit Int :=
  pyInt (splitChar '.' (s.data.dropWhile (· == '$'))).flatten

/-- Days per month as validated by Python `datetime`, including the
Gregorian leap rule. -/
def daysInMonth (y m : Nat) : Nat :=
  if m = 2 then
    if y % 4 = 0 && (y % 100 ≠ 0 || y % 400 = 0) then 29 else 28
  else if m = 4 ∨ m = 6 ∨ m = 9 ∨ m = 11 then 30
  else 31

/-- Models the `datetime.datetime(year, month, day)` constructor: year in
`1..9999` (`MINYEAR..MAXYEAR`), month in `1..12`, day in range for the
month, else `ValueError`. -/
def mkDatetime (y m d : Int) : Except Unit PyDate :=
  if 1 ≤ y ∧ y ≤ 9999 ∧ 1 ≤ m ∧ m ≤ 12 ∧ 1 ≤ d ∧ d ≤ (daysInMonth y.toNat m.toNat : Int) then
    .ok ⟨y.toNat, m.toNat, d.toNat⟩
  else .error ()

/-- `clean_date` from the source: split on `'/'`, take components 0, 1, 2
as month, day, year (an `IndexError`, i.e. fewer than three components, is
also modelled as `.error ()`), and build a `datetime`. -/
def clean_date (s : String) : Except Unit PyDate :=
  match (splitChar '/' s.data)[0]?, (splitChar '/' s.data)[1]?, (splitChar '/' s.data)[2]? with
  | some a, some b, some c =>
    match pyInt a, pyInt b, pyInt c with
    | .ok m, .ok d, .ok y => mkDatetime y m d
    | _, _, _ => .error ()
  | _, _, _ => .error ()

/-! ## check_duplicates -/

/-- The query inside the reconciliation loop:
`session.query(Product).filter(Product.product_id != p.product_id)
.filter(Product.product_name == p.product_name)` against the current
(autoflushed) table state. -/
def dupQuery (db : List Product) (p : Product) : List Product :=
  db.filter fun r =>
    decide (r.product_id ≠ p.product_id) && decide (r.product_name = p.product_name)

/-- `session.delete` of the row with the given primary key (a no-op when
the row is already gone, matching SQLAlchemy on an already-deleted
instance). -/
def deleteById (db : List Product) (i : Nat) : List Product :=
  db.filter fun r => decide (r.product_id ≠ i)

/-- One iteration of the `check_duplicates` loop body for snapshot element
`p`: `one_or_none()` raises `MultipleResultsFound` on two or more matches
(`.error ()`); on exactly one match the more recently updated of the pair
survives and the other row is deleted; equal timestamps delete nothing. -/
def dupStep (db : List Product) (p : Product) : Except Unit (List Product) :=
  match dupQuery db p with
  | [] => .ok db
  | [d] =>
    if PyDate.blt d.date_updated p.date_updated then .ok (deleteById db d.product_id)
    else if PyDate.blt p.date_updated d.date_updated then .ok (deleteById db p.product_id)
    else .ok db
  | _ => .error ()

/-- The `for product in data` loop of `check_duplicates`: `ps` is the
snapshot taken by `session.query(Product).all()` before the loop, the
first component threads the mutated table state. -/
def dupLoop : List Product → List Product → Except Unit (List Product)
  | db, [] => .ok db
  | db, p :: ps =>
    match dupStep db p with
    | .error e => .error e
    | .ok db1 => dupLoop db1 ps

/-- `check_duplicates()` from the source.  `.ok e` is the table state made
durable by the final `session.commit()`; `.error ()` is an uncaught
`MultipleResultsFound`, in which case nothing is committed and the
persistent state is unchanged. -/
def check_duplicates (db : List Product) : Except Unit (List Product) :=
  dupLoop db db

/-! ## add_csv -/

/-- One parsed data row of `inventory.csv`: the values bound by the loop
body of `add_csv` before constructing a `Product`. -/
structure Row4 where
  name : String
  price : Int
  quantity : Int
  date : PyDate
deriving DecidableEq, Repr

/-- Parse one CSV data row exactly as the `add_csv` loop body does:
`row[0]` is the name, `clean_price(row[1])`, `int(row[2])`,
`clean_date(row[3])`; a missing column (`IndexError`) or any failed
conversion aborts with an uncaught exception. -/
def parseRow (row : List String) : Except Unit Row4 :=
  match row[0]?, row[1]?, row[2]?, row[3]? with
  | some n, some p, some q, some dt =>
    match clean_price p, pyInt q.data, clean_date dt with
    | .ok price, .ok quantity, .ok date => .ok ⟨n, price, quantity, date⟩
    | _, _, _ => .error ()
  | _, _, _, _ => .error ()

/-- Parse the data rows in order, stopping at the first failing row. -/
def parseRows : List (List String) → Except Unit (List Row4)
  | [] => .ok []
  | r :: rs =>
    match parseRow r with
    | .error e => .error e
    | .ok x =>
      match parseRows rs with
      | .error e => .error e
      | .ok xs => .ok (x :: xs)

/-- Largest primary key in the table (0 when empty); SQLite assigns
`maxId + 1` to the next inserted row. -/
def maxId (db : List Product) : Nat :=
  db.foldr (fun r a => max r.product_id a) 0

/-- Insert the parsed rows in order, assigning consecutive fresh primary
keys starting at `i`. -/
def insertAll : Nat → List Row4 → List Product
  | _, [] => []
  | i, r :: rs => ⟨i, r.name, r.quantity, r.price, r.date⟩ :: insertAll (i + 1) rs

/-- `add_csv()` from the source, at the granularity of already
CSV-decoded rows (`rows` includes the header row, which the loop skips).
Returns the persistent table state together with the outcome:
a row that fails to parse raises before `session.commit()`, so the
persistent state is the unchanged `db`; otherwise all rows are inserted
and committed and `check_duplicates` runs (whose own failure happens
after that commit). -/
def add_csv (db : List Product) (rows : List (List String)) : List Product × Except Unit Unit :=
  match parseRows (rows.drop 1) with
  | .error e => (db, .error e)
  | .ok prs =>
    let db1 := db ++ insertAll (maxId db + 1) prs
    match check_duplicates db1 with
    | .error e => (db1, .error e)
    | .ok db2 => (db2, .ok ())

/-! ## add_product -/

/-- `add_product()` from the source, after the interactive re-prompt loops
have produced a name, a valid quantity, a valid price and the current
timestamp `now`.  The name lookup is `one_or_none()`, so two or more rows
with the entered name raise `MultipleResultsFound` (`.error ()`); no match
inserts a fresh row; exactly one match updates that row in place. -/
def add_product (db : List Product) (name : String) (q price : Int) (now : PyDate) :
    Except Unit (List Product) :=
  match db.filter fun r => decide (r.product_name = name) with
  | [] => .ok (db ++ [⟨maxId db + 1, name, q, price, now⟩])
  | [d] =>
    .ok (db.map fun r =>
      if r.product_id = d.product_id then
        { r with product_quantity := q, product_price := price, date_updated := now }
      else r)
  | _ => .error ()

/-! ## backup_db -/

/-- Zero-padded two-digit decimal field (used by `strftime` `%m`/`%d` and
by the fractional part of a two-decimal float). -/
def pad2Chars (n : Nat) : List Char :=
  if n < 10 then '0' :: Nat.toDigits 10 n else Nat.toDigits 10 n

/-- Characters of Python `repr(n / 100)` for a nonnegative cent amount
`n`: float division by 100 followed by shortest round-trip formatting.
This model is exact precisely for `n ≤ 10 ^ 13`: there `n / 100 < 10 ^ 11
< 2 ^ 37`, so the binary double `x` nearest `n / 100` has
`ulp x ≤ 2 ^ (37 - 52) < 0.005`; hence `n / 100` is the only decimal with
at most two fractional digits in the rounding interval of `x` and no
shorter decimal lies in it, making the exact decimal expansion of
`n / 100` (trailing zeros dropped, at least one fractional digit kept)
the shortest round-trip string, printed positionally since `x < 10 ^ 16`.
Beyond that bound float rounding drops information (for example
`10 ^ 17 + 1` cents prints as `1000000000000000.0`, and `≥ 10 ^ 16`
dollars switches to scientific notation), so every theorem about the
price format carries the hypothesis `|cents| ≤ 10 ^ 13`.  The expansion:
two fractional digits when `n % 10 ≠ 0`, one when `n % 10 = 0 ≠ n % 100`,
and `.0` when `100 ∣ n`. -/
def priceChars (n : Nat) : List Char :=
  if n % 100 = 0 then Nat.toDigits 10 (n / 100) ++ '.' :: ['0']
  else if n % 10 = 0 then Nat.toDigits 10 (n / 100) ++ '.' :: [Nat.digitChar (n % 100 / 10)]
  else Nat.toDigits 10 (n / 100) ++ '.' :: pad2Chars (n % 100)

/-- Decimal characters of a Python `int` (`str(i)`). -/
def intChars : Int → List Char
  | .ofNat m => Nat.toDigits 10 m
  | .negSucc m => '-' :: Nat.toDigits 10 (m + 1)

/-- The f-string `f'${product.product_price / 100}'` of `backup_db`. -/
def formatPrice (p : Int) : String :=
  ('$' :: ((if p < 0 then ['-'] else []) ++ priceChars p.natAbs)).asString

/-- `product.date_updated.strftime('%m/%d/%Y')`: zero-padded month and
day; `%Y` prints the year without padding (glibc behaviour; all dates the
program builds have four-digit years). -/
def formatDate (d : PyDate) : String :=
  (pad2Chars d.month ++ ('/' :: (pad2Chars d.day ++ ('/' :: Nat.toDigits 10 d.year)))).asString

/-- Header row written by `backup_db`. -/
def backupHeader : List String :=
  ["product_name", "product_price", "product_quantity", "date_updated"]

/-- One data row written by `backup_db` for a stored product. -/
def backupRow (r : Product) : List String :=
  [r.product_name, formatPrice r.product_price, (intChars r.product_quantity).asString,
    formatDate r.date_updated]

/-- `backup_db()` from the source, at the granularity of CSV rows written
to `backup.csv`: the header followed by one row per stored product. -/
def backup_db (db : List Product) : List (List String) :=
  backupHeader :: db.map backupRow

/-! ## Output-shape predicates (for the spec's format claims) -/

/-- The spec's `$D.DD` price shape: a dollar sign, a nonempty run of
digits, a decimal point, and exactly two digits. -/
def isDollarDD (s : String) : Bool :=
  match s.data with
  | c :: rest =>
    let ip := rest.takeWhile fun ch => !(ch == '.')
    (c == '$') && decide (ip ≠ []) && ip.all Char.isDigit &&
      match rest.dropWhile (fun ch => !(ch == '.')) with
      | d :: frac => (d == '.') && decide (frac.length = 2) && frac.all Char.isDigit
      | [] => false
  | [] => false

/-- Zero-padded `mm/dd/yyyy` date shape with a four-digit year. -/
def isDateMMDDYYYY (s : String) : Bool :=
  match s.data with
  | [m1, m2, s1, d1, d2, s2, y1, y2, y3, y4] =>
    m1.isDigit && m2.isDigit && (s1 == '/') && d1.isDigit && d2.isDigit &&
      (s2 == '/') && y1.isDigit && y2.isDigit && y3.isDigit && y4.isDigit
  | _ => false

/-- The (name, price, quantity) triple of a stored product, the quantity
the round-trip claim compares. -/
def tripleOfProduct (r : Product) : String × Int × Int :=
  (r.product_name, r.product_price, r.product_quantity)

/-- The (name, price, quantity) triple of a parsed CSV row. -/
def tripleOfRow (p : Row4) : String × Int × Int :=
  (p.name, p.price, p.quantity)

/-- Validity ranges guaranteed by the `datetime` constructor. -/
def validDate (d : PyDate) : Prop :=
  1 ≤ d.year ∧ d.year ≤ 9999 ∧ 1 ≤ d.month ∧ d.month ≤ 12 ∧
    1 ≤ d.day ∧ d.day ≤ daysInMonth d.year d.month

instance (d : PyDate) : Decidable (validDate d) := by
  unfold validDate; infer_instance

/-! ## Character-class facts -/

theorem beq_eq_false_of_isDigit {c : Char} (t : Char) (h : c.isDigit = true)
    (ht : t.isDigit = false) : (c == t) = false := by
  cases hbe : c == t with
  | false => rfl
  | true =>
    have hct : c = t := eq_of_beq hbe
    subst hct
    rw [h] at ht
    exact absurd ht (by simp)

theorem not_ws_of_isDigit {c : Char} (h : c.isDigit = true) : c.isWhitespace = false := by
  cases hw : c.isWhitespace with
  | false => rfl
  | true =>
    exfalso
    simp only [Char.isWhitespace, Bool.or_eq_true, decide_eq_true_eq] at hw
    rcases hw with (((h1 | h1) | h1) | h1) <;> (subst h1; exact absurd h (by decide))

/-! ## PyDate order facts -/

theorem PyDate.blt_irrefl (a : PyDate) : PyDate.blt a a = false := by
  simp [PyDate.blt]

theorem PyDate.eq_of_not_blt {a b : PyDate} (h1 : PyDate.blt a b = false)
    (h2 : PyDate.blt b a = false) : a = b := by
  cases a with
  | mk ay am ad =>
    cases b with
    | mk b1 b2 b3 =>
      simp only [PyDate.blt, Bool.or_eq_false_iff, Bool.and_eq_false_iff,
        decide_eq_false_iff_not, not_lt, PyDate.mk.injEq] at h1 h2 ⊢
      omega

/-! ## Reconciler structural lemmas -/

theorem mem_dupQuery {db : List Product} {p r : Product} :
    r ∈ dupQuery db p ↔
      r ∈ db ∧ r.product_id ≠ p.product_id ∧ r.product_name = p.product_name := by
  simp [dupQuery, List.mem_filter]

theorem dupStep_sublist {db db1 : List Product} {p : Product}
    (h : dupStep db p = .ok db1) : db1.Sublist db := by
  unfold dupStep at h
  split at h
  · cases h; exact List.Sublist.refl _
  · split at h
    · cases h; exact List.filter_sublist _
    · split at h
      · cases h; exact List.filter_sublist _
      · cases h; exact List.Sublist.refl _
  · exact absurd h (by simp)

theorem dupLoop_sublist : ∀ {ps db e : List Product},
    dupLoop db ps = .ok e → e.Sublist db := by
  intro ps
  induction ps with
  | nil =>
    intro db e h
    cases h
    exact List.Sublist.refl _
  | cons p ps ih =>
    intro db e h
    unfold dupLoop at h
    cases hst : dupStep db p with
    | error u => rw [hst] at h; exact absurd h (by simp)
    | ok db1 =>
      rw [hst] at h
      exact (ih h).trans (dupStep_sublist hst)

theorem dupStep_of_nil {db : List Product} {p : Product} (h : dupQuery db p = []) :
    dupStep db p = .ok db := by
  simp [dupStep, h]

theorem dupStep_of_many {db : List Product} {p d1 d2 : Product} {t : List Product}
    (h : dupQuery db p = d1 :: d2 :: t) : dupStep db p = .error () := by
  simp [dupStep, h]

theorem length_le_one_of_nodup_all_eq {l : List Product} {d : Product}
    (hnd : l.Nodup) (hall : ∀ x ∈ l, x = d) : l.length ≤ 1 := by
  match l, hnd, hall with
  | [], _, _ => simp
  | [x], _, _ => simp
  | x :: y :: t, hnd, hall =>
    exfalso
    have hx : x = d := hall x (by simp)
    have hy : y = d := hall y (by simp)
    have : x ∉ y :: t := (List.nodup_cons.mp hnd).1
    exact this (by simp [hx, hy])

/-- Characterisation of the survivors of a successful reconciliation run:
each surviving snapshot element has at most one same-named other survivor,
and any such other survivor carries an identical timestamp. -/
theorem dupLoop_final_dates : ∀ (ps db e : List Product),
    (db.map fun r => r.product_id).Nodup →
    dupLoop db ps = .ok e →
    ∀ p ∈ ps, p ∈ e →
      (dupQuery e p).length ≤ 1 ∧ ∀ r ∈ dupQuery e p, r.date_updated = p.date_updated := by
  intro ps
  induction ps with
  | nil => intro db e _ _ p hp; exact absurd hp (by simp)
  | cons q ps ih =>
    intro db e hnd hrun p hp hpe
    unfold dupLoop at hrun
    cases hst : dupStep db q with
    | error u => rw [hst] at hrun; exact absurd hrun (by simp)
    | ok db1 =>
      rw [hst] at hrun
      have hsub1 : e.Sublist db1 := dupLoop_sublist hrun
      have hsubs : db1.Sublist db := dupStep_sublist hst
      have hsube : e.Sublist db := hsub1.trans hsubs
      rcases List.mem_cons.mp hp with hpq | hp2
      · -- p is the element processed by this iteration
        subst hpq
        cases hq : dupQuery db p with
        | nil =>
          have hdb1 : db1 = db := by
            rw [dupStep_of_nil hq] at hst
            exact (Except.ok.inj hst).symm
          have hempty : dupQuery e p = [] := by
            rw [List.eq_nil_iff_forall_not_mem]
            intro r hr
            rcases mem_dupQuery.mp hr with ⟨hre, hid, hname⟩
            have : r ∈ dupQuery db p :=
              mem_dupQuery.mpr ⟨hsube.subset hre, hid, hname⟩
            rw [hq] at this
            exact absurd this (by simp)
          rw [hempty]
          exact ⟨by simp, by simp⟩
        | cons d t =>
          cases t with
          | cons d2 t2 =>
            rw [dupStep_of_many hq] at hst
            exact absurd hst (by simp)
          | nil =>
            -- exactly one duplicate d
            have hmem_d : ∀ r ∈ dupQuery e p, r = d := by
              intro r hr
              rcases mem_dupQuery.mp hr with ⟨hre, hid, hname⟩
              have : r ∈ dupQuery db p :=
                mem_dupQuery.mpr ⟨hsube.subset hre, hid, hname⟩
              rw [hq] at this
              simpa using this
            have hstep : dupStep db p =
                (if PyDate.blt d.date_updated p.date_updated then
                  .ok (deleteById db d.product_id)
                else if PyDate.blt p.date_updated d.date_updated then
                  .ok (deleteById db p.product_id)
                else .ok db) := by
              simp [dupStep, hq]
            rw [hstep] at hst
            by_cases h1 : PyDate.blt d.date_updated p.date_updated = true
            · -- d was deleted: no same-named survivor remains
              rw [if_pos h1] at hst
              have hdb1 : db1 = deleteById db d.product_id := (Except.ok.inj hst).symm
              have hempty : dupQuery e p = [] := by
                rw [List.eq_nil_iff_forall_not_mem]
                intro r hr
                have hrd : r = d := hmem_d r hr
                rcases mem_dupQuery.mp hr with ⟨hre, _, _⟩
                have hrdb1 : r ∈ db1 := hsub1.subset hre
                rw [hdb1] at hrdb1
                have := (List.mem_filter.mp hrdb1).2
                rw [hrd] at this
                simp at this
              rw [hempty]
              exact ⟨by simp, by simp⟩
            · rw [if_neg h1] at hst
              by_cases h2 : PyDate.blt p.date_updated d.date_updated = true
              · -- p itself was deleted: contradicts p ∈ e
                rw [if_pos h2] at hst
                have hdb1 : db1 = deleteById db p.product_id := (Except.ok.inj hst).symm
                exfalso
                have hpdb1 : p ∈ db1 := hsub1.subset hpe
                rw [hdb1] at hpdb1
                have := (List.mem_filter.mp hpdb1).2
                simp at this
              · -- equal timestamps: both survive untouched
                rw [if_neg h2] at hst
                have hdb1 : db1 = db := (Except.ok.inj hst).symm
                have hdate : d.date_updated = p.date_updated :=
                  PyDate.eq_of_not_blt (Bool.eq_false_iff.mpr h1) (Bool.eq_false_iff.mpr h2)
                have hnde : e.Nodup :=
                  (List.Nodup.of_map _ hnd).sublist hsube
                refine ⟨length_le_one_of_nodup_all_eq (hnde.filter _) hmem_d, ?_⟩
                intro r hr
                rw [hmem_d r hr]
                exact hdate
      · -- p is processed later: induction on the tail with the new state
        have hnd1 : (db1.map fun r => r.product_id).Nodup :=
          hnd.sublist (hsubs.map _)
        exact ih db1 e hnd1 hrun p hp2 hpe

/-- On a state where every snapshot element has at most one same-named
companion and companions share timestamps, the reconciliation loop is the
identity. -/
theorem dupLoop_fixed : ∀ (l e : List Product),
    (∀ p ∈ l,
      (dupQuery e p).length ≤ 1 ∧ ∀ r ∈ dupQuery e p, r.date_updated = p.date_updated) →
    dupLoop e l = .ok e := by
  intro l
  induction l with
  | nil => intro e _; rfl
  | cons p l ih =>
    intro e h
    have hp := h p (by simp)
    have hstep : dupStep e p = .ok e := by
      cases hq : dupQuery e p with
      | nil => exact dupStep_of_nil hq
      | cons d t =>
        cases t with
        | cons d2 t2 =>
          exfalso
          have := hp.1
          rw [hq] at this
          simp at this
        | nil =>
          have hdate : d.date_updated = p.date_updated :=
            hp.2 d (by rw [hq]; simp)
          simp [dupStep, hq, hdate, PyDate.blt_irrefl]
    unfold dupLoop
    rw [hstep]
    exact ih e fun r hr => h r (by simp [hr])

/-! ## Claim theorems: reconciler -/

/-- C1: the claim states that a store holding exactly three same-named
records with timestamps T1 < T2 < T3 is reconciled down to the single
record with timestamp T3.  On the code this is false: the very first loop
iteration's `one_or_none()` sees the two other same-named rows and raises
`MultipleResultsFound`, so `check_duplicates` aborts (deleting and
committing nothing) instead of deduplicating.  This theorem evaluates the
code at the failing input. -/
theorem claim_C1_three_duplicates_crash :
    check_duplicates
      [⟨1, "Widget", 1, 100, ⟨2021, 1, 1⟩⟩,
       ⟨2, "Widget", 1, 100, ⟨2021, 1, 2⟩⟩,
       ⟨3, "Widget", 1, 100, ⟨2021, 1, 3⟩⟩] = .error () := by
  rfl

/-- C5: the reconciler is idempotent — whenever a run completes on a store
with distinct primary keys, running it again on the result succeeds and
changes nothing. -/
theorem claim_C5_reconciler_idempotent (db e : List Product)
    (hids : (db.map fun r => r.product_id).Nodup)
    (h : check_duplicates db = .ok e) :
    check_duplicates e = .ok e := by
  unfold check_duplicates at h ⊢
  apply dupLoop_fixed
  intro p hpe
  exact dupLoop_final_dates db db e hids h p ((dupLoop_sublist h).subset hpe) hpe

/-- C5 witness: a concrete store with one duplicate pair; the second run
fixes the first run's output. -/
theorem claim_C5_witness :
    check_duplicates ([⟨2, "A", 2, 200, ⟨2021, 1, 2⟩⟩] : List Product) =
      .ok [⟨2, "A", 2, 200, ⟨2021, 1, 2⟩⟩] :=
  claim_C5_reconciler_idempotent
    [⟨1, "A", 1, 100, ⟨2021, 1, 1⟩⟩, ⟨2, "A", 2, 200, ⟨2021, 1, 2⟩⟩] _
    (by decide) (by rfl)

/-- C10: the reconciler only deletes records — the surviving state is a
sublist of the original, so every surviving record keeps all its fields. -/
theorem claim_C10_only_deletes (db e : List Product)
    (h : check_duplicates db = .ok e) : e.Sublist db :=
  dupLoop_sublist h

/-- C10 witness: concrete two-duplicate store. -/
theorem claim_C10_witness :
    List.Sublist ([⟨2, "A", 2, 200, ⟨2021, 1, 2⟩⟩] : List Product)
      [⟨1, "A", 1, 100, ⟨2021, 1, 1⟩⟩, ⟨2, "A", 2, 200, ⟨2021, 1, 2⟩⟩] :=
  claim_C10_only_deletes _ _ (by rfl)

/-! ## Claim theorems: normalizers -/

/-- C4: `normalize_price` maps `$19.99` to 1999 and `$0.05` to 5, and
fails on `abc`. -/
theorem claim_C4_normalize_price_examples :
    clean_price "$19.99" = .ok 1999 ∧ clean_price "$0.05" = .ok 5 ∧
      clean_price "abc" = .error () :=
  ⟨rfl, rfl, rfl⟩

/-! ## Decimal digit-string lemmas (`Nat.toDigits`) -/

theorem digitChar_isDigit {k : Nat} (h : k < 10) : (Nat.digitChar k).isDigit = true := by
  interval_cases k <;> decide

theorem digitChar_val {k : Nat} (h : k < 10) : (Nat.digitChar k).toNat - '0'.toNat = k := by
  interval_cases k <;> decide

theorem toDigitsCore_all_digit : ∀ (f n : Nat) (ds : List Char),
    (∀ c ∈ ds, c.isDigit = true) →
    ∀ c ∈ Nat.toDigitsCore 10 f n ds, c.isDigit = true := by
  intro f
  induction f with
  | zero => intro n ds h c hc; exact h c hc
  | succ f ih =>
    intro n ds h c hc
    simp only [Nat.toDigitsCore] at hc
    by_cases h0 : n / 10 = 0
    · rw [if_pos h0] at hc
      rcases List.mem_cons.mp hc with h1 | h1
      · subst h1; exact digitChar_isDigit (Nat.mod_lt n (by norm_num))
      · exact h c h1
    · rw [if_neg h0] at hc
      refine ih (n / 10) _ ?_ c hc
      intro c2 hc2
      rcases List.mem_cons.mp hc2 with h1 | h1
      · subst h1; exact digitChar_isDigit (Nat.mod_lt n (by norm_num))
      · exact h c2 h1

theorem toDigits_all_digit (n : Nat) : ∀ c ∈ Nat.toDigits 10 n, c.isDigit = true :=
  toDigitsCore_all_digit (n + 1) n [] (by simp)

theorem toDigitsCore_ne_nil : ∀ (f n : Nat) (ds : List Char),
    ds ≠ [] → Nat.toDigitsCore 10 f n ds ≠ [] := by
  intro f
  induction f with
  | zero => intro n ds h; exact h
  | succ f ih =>
    intro n ds h
    simp only [Nat.toDigitsCore]
    by_cases h0 : n / 10 = 0
    · rw [if_pos h0]; exact List.cons_ne_nil _ _
    · rw [if_neg h0]; exact ih (n / 10) _ (List.cons_ne_nil _ _)

theorem toDigits_ne_nil (n : Nat) : Nat.toDigits 10 n ≠ [] := by
  unfold Nat.toDigits
  simp only [Nat.toDigitsCore]
  by_cases h0 : n / 10 = 0
  · rw [if_pos h0]; exact List.cons_ne_nil _ _
  · rw [if_neg h0]; exact toDigitsCore_ne_nil n (n / 10) _ (List.cons_ne_nil _ _)

theorem digitsVal_go : ∀ (cs : List Char) (a : Nat),
    cs.foldl (fun x c => 10 * x + (c.toNat - '0'.toNat)) a =
      a * 10 ^ cs.length + digitsVal cs := by
  intro cs
  induction cs with
  | nil => intro a; simp [digitsVal]
  | cons c t ih =>
    intro a
    rw [List.foldl_cons, ih]
    have h2 : digitsVal (c :: t) = (c.toNat - '0'.toNat) * 10 ^ t.length + digitsVal t := by
      show t.foldl _ (10 * 0 + (c.toNat - '0'.toNat)) = _
      rw [ih]
      ring
    rw [List.length_cons, h2, pow_succ]
    ring

theorem digitsVal_append (xs ys : List Char) :
    digitsVal (xs ++ ys) = digitsVal xs * 10 ^ ys.length + digitsVal ys := by
  unfold digitsVal
  rw [List.foldl_append, digitsVal_go]
  rfl

theorem digitsVal_digitChar_cons {k : Nat} (hk : k < 10) (ds : List Char) :
    digitsVal (Nat.digitChar k :: ds) = k * 10 ^ ds.length + digitsVal ds := by
  unfold digitsVal
  rw [List.foldl_cons, digitsVal_go]
  rw [show 10 * 0 + ((Nat.digitChar k).toNat - '0'.toNat) = k by
    rw [digitChar_val hk]; ring]
  rfl

theorem digitsVal_toDigitsCore : ∀ (f n : Nat) (ds : List Char), n < 10 ^ f →
    digitsVal (Nat.toDigitsCore 10 f n ds) = n * 10 ^ ds.length + digitsVal ds := by
  intro f
  induction f with
  | zero =>
    intro n ds h
    have h0 : n = 0 := by simpa using h
    subst h0
    simp [Nat.toDigitsCore]
  | succ f ih =>
    intro n ds h
    simp only [Nat.toDigitsCore]
    by_cases h0 : n / 10 = 0
    · rw [if_pos h0]
      have hn : n < 10 := by omega
      rw [digitsVal_digitChar_cons (Nat.mod_lt n (by norm_num)), Nat.mod_eq_of_lt hn]
    · rw [if_neg h0]
      have hdiv : n / 10 < 10 ^ f := by
        rw [pow_succ] at h
        exact (Nat.div_lt_iff_lt_mul (by norm_num)).mpr h
      rw [ih (n / 10) _ hdiv, digitsVal_digitChar_cons (Nat.mod_lt n (by norm_num)),
        List.length_cons, pow_succ]
      calc n / 10 * (10 ^ ds.length * 10) + (n % 10 * 10 ^ ds.length + digitsVal ds)
          = (10 * (n / 10) + n % 10) * 10 ^ ds.length + digitsVal ds := by ring
        _ = n * 10 ^ ds.length + digitsVal ds := by rw [Nat.div_add_mod]

theorem digitsVal_toDigits (n : Nat) : digitsVal (Nat.toDigits 10 n) = n := by
  unfold Nat.toDigits
  rw [digitsVal_toDigitsCore (n + 1) n []
    (lt_of_lt_of_le (Nat.lt_pow_self (by norm_num) n)
      (Nat.pow_le_pow_right (by norm_num) (Nat.le_succ n)))]
  simp [digitsVal]

theorem toDigitsCore_len_exact : ∀ (f k n : Nat) (ds : List Char),
    10 ^ k ≤ n → n < 10 ^ (k + 1) → k + 1 ≤ f →
    (Nat.toDigitsCore 10 f n ds).length = (k + 1) + ds.length := by
  intro f
  induction f with
  | zero => intro k n ds _ _ hf; omega
  | succ f ih =>
    intro k n ds hlo hhi hf
    simp only [Nat.toDigitsCore]
    by_cases h0 : n / 10 = 0
    · rw [if_pos h0]
      have hn : n < 10 := by omega
      have hk : k = 0 := by
        by_contra hk0
        have h1 : 10 ^ 1 ≤ 10 ^ k := Nat.pow_le_pow_right (by norm_num) (by omega)
        simp at h1
        omega
      subst hk
      simp only [List.length_cons]
      omega
    · rw [if_neg h0]
      rcases k with _ | k1
      · exfalso
        have : n < 10 := by simpa using hhi
        omega
      · have hlo2 : 10 ^ k1 ≤ n / 10 := by
          rw [Nat.le_div_iff_mul_le (by norm_num)]
          rw [pow_succ] at hlo
          exact hlo
        have hhi2 : n / 10 < 10 ^ (k1 + 1) := by
          rw [Nat.div_lt_iff_lt_mul (by norm_num), ← pow_succ]
          exact hhi
        rw [ih k1 (n / 10) _ hlo2 hhi2 (by omega), List.length_cons]
        omega

theorem toDigits_len_four {y : Nat} (h1 : 1000 ≤ y) (h2 : y ≤ 9999) :
    (Nat.toDigits 10 y).length = 4 := by
  unfold Nat.toDigits
  rw [toDigitsCore_len_exact (y + 1) 3 y [] (by norm_num; omega) (by norm_num; omega)
    (by omega)]
  rfl

theorem toDigits_single {n : Nat} (h : n < 10) : Nat.toDigits 10 n = [Nat.digitChar n] := by
  unfold Nat.toDigits
  simp only [Nat.toDigitsCore]
  rw [if_pos (by omega : n / 10 = 0), Nat.mod_eq_of_lt h]

/-! ## pad2Chars lemmas -/

theorem toDigits_len_two {n : Nat} (h1 : 10 ≤ n) (h2 : n < 100) :
    (Nat.toDigits 10 n).length = 2 := by
  unfold Nat.toDigits
  rw [toDigitsCore_len_exact (n + 1) 1 n [] (by norm_num; omega) (by norm_num; omega)
    (by omega)]
  rfl

theorem pad2Chars_spec {n : Nat} (h : n < 100) :
    ∃ a b : Char, pad2Chars n = [a, b] ∧ a.isDigit = true ∧ b.isDigit = true ∧
      digitsVal (pad2Chars n) = n := by
  unfold pad2Chars
  by_cases h10 : n < 10
  · rw [if_pos h10, toDigits_single h10]
    refine ⟨'0', Nat.digitChar n, rfl, by decide, digitChar_isDigit h10, ?_⟩
    show digitsVal ['0', Nat.digitChar n] = n
    unfold digitsVal
    simp only [List.foldl_cons, List.foldl_nil]
    rw [digitChar_val h10]
    have h00 : '0'.toNat - '0'.toNat = 0 := by decide
    rw [h00]
    omega
  · rw [if_neg h10]
    have hlen : (Nat.toDigits 10 n).length = 2 := toDigits_len_two (by omega) h
    obtain ⟨a, b, hab⟩ := List.length_eq_two.mp hlen
    refine ⟨a, b, hab, ?_, ?_, digitsVal_toDigits n⟩
    · exact toDigits_all_digit n a (by rw [hab]; simp)
    · exact toDigits_all_digit n b (by rw [hab]; simp)

theorem dropWhile_ws_eq_self {l : List Char} (h : ∀ c ∈ l, c.isWhitespace = false) :
    l.dropWhile Char.isWhitespace = l := by
  cases l with
  | nil => rfl
  | cons c t => simp [List.dropWhile_cons, h c (by simp)]

theorem stripWs_eq_self {l : List Char} (h : ∀ c ∈ l, c.isWhitespace = false) :
    stripWs l = l := by
  unfold stripWs
  rw [dropWhile_ws_eq_self h,
    dropWhile_ws_eq_self (fun c hc => h c (List.mem_reverse.mp hc)),
    List.reverse_reverse]

theorem pyInt_digits {l : List Char} (h1 : l ≠ []) (h2 : ∀ c ∈ l, c.isDigit = true) :
    pyInt l = .ok (digitsVal l : Int) := by
  unfold pyInt
  rw [stripWs_eq_self (fun c hc => not_ws_of_isDigit (h2 c hc))]
  cases l with
  | nil => exact absurd rfl h1
  | cons c t =>
    have hc := h2 c (by simp)
    show pyIntCore (c :: t) = .ok (digitsVal (c :: t) : Int)
    simp only [pyIntCore]
    rw [beq_eq_false_of_isDigit '-' hc (by decide),
      beq_eq_false_of_isDigit '+' hc (by decide)]
    simp only [Bool.false_eq_true, if_false]
    rw [if_pos]
    simp only [isDigits, List.isEmpty_cons, Bool.not_false, Bool.true_and]
    exact List.all_eq_true.mpr h2

/-! ## Format-shape lemmas -/

theorem data_asString (l : List Char) : (List.asString l).data = l := rfl

theorem takeWhile_digits_dot (D P : List Char) (hD : ∀ c ∈ D, c.isDigit = true) :
    (D ++ '.' :: P).takeWhile (fun ch => !(ch == '.')) = D ∧
      (D ++ '.' :: P).dropWhile (fun ch => !(ch == '.')) = '.' :: P := by
  induction D with
  | nil => exact ⟨by simp [List.takeWhile_cons], by simp [List.dropWhile_cons]⟩
  | cons a D ih =>
    have ha : a.isDigit = true := hD a (by simp)
    have hne : (a == '.') = false := beq_eq_false_of_isDigit '.' ha (by decide)
    have ihh := ih fun c hc => hD c (by simp [hc])
    constructor
    · simp only [List.cons_append, List.takeWhile_cons, hne, Bool.not_false, if_true]
      rw [ihh.1]
    · simp only [List.cons_append, List.dropWhile_cons, hne, Bool.not_false, if_true]
      exact ihh.2

theorem length_eq_four {l : List Char} (h : l.length = 4) :
    ∃ a b c d, l = [a, b, c, d] := by
  rcases l with _ | ⟨a, _ | ⟨b, _ | ⟨c, _ | ⟨d, rest⟩⟩⟩⟩ <;> simp_all

theorem isDollarDD_formatPrice {p : Int} (h0 : 0 ≤ p) (h10 : p.natAbs % 10 ≠ 0) :
    isDollarDD (formatPrice p) = true := by
  unfold formatPrice
  rw [if_neg (by omega : ¬ p < 0)]
  have h100 : ¬ p.natAbs % 100 = 0 := by omega
  have hD := toDigits_all_digit (p.natAbs / 100)
  have hDne := toDigits_ne_nil (p.natAbs / 100)
  obtain ⟨a, b, hab, ha, hb, _⟩ := pad2Chars_spec (Nat.mod_lt p.natAbs (by norm_num) :
    p.natAbs % 100 < 100)
  unfold priceChars
  rw [if_neg h100, if_neg h10]
  have htw := takeWhile_digits_dot (Nat.toDigits 10 (p.natAbs / 100))
    (pad2Chars (p.natAbs % 100)) hD
  rw [hab] at htw
  unfold isDollarDD
  rw [data_asString]
  simp only [List.nil_append, List.singleton_append]
  rw [hab]
  simp only [htw.1, htw.2]
  simp only [List.all_eq_true, Bool.and_eq_true, decide_eq_true_eq]
  repeat' apply And.intro
  all_goals first
    | rfl
    | exact hDne
    | exact hD
    | simp [ha, hb]

theorem isDate_formatDate {d : PyDate} (hm1 : 1 ≤ d.month) (hm2 : d.month ≤ 12)
    (hd1 : 1 ≤ d.day) (hd2 : d.day ≤ 31)
    (hy1 : 1000 ≤ d.year) (hy2 : d.year ≤ 9999) :
    isDateMMDDYYYY (formatDate d) = true := by
  obtain ⟨a, b, hab, ha, hb, _⟩ := pad2Chars_spec (show d.month < 100 by omega)
  obtain ⟨c, e, hce, hc, he, _⟩ := pad2Chars_spec (show d.day < 100 by omega)
  have hylen : (Nat.toDigits 10 d.year).length = 4 := toDigits_len_four hy1 hy2
  obtain ⟨y1, y2, y3, y4, hy⟩ := length_eq_four hylen
  have hy1d := toDigits_all_digit d.year y1 (by rw [hy]; simp)
  have hy2d := toDigits_all_digit d.year y2 (by rw [hy]; simp)
  have hy3d := toDigits_all_digit d.year y3 (by rw [hy]; simp)
  have hy4d := toDigits_all_digit d.year y4 (by rw [hy]; simp)
  unfold formatDate isDateMMDDYYYY
  rw [data_asString, hab, hce, hy]
  simp [ha, hb, hc, he, hy1d, hy2d, hy3d, hy4d]

/-! ## splitChar lemmas -/

theorem splitChar_ne_nil (sep : Char) : ∀ l, splitChar sep l ≠ [] := by
  intro l
  induction l with
  | nil => simp [splitChar]
  | cons a t ih =>
    unfold splitChar
    by_cases h : (a == sep) = true
    · simp [h]
    · rw [if_neg h]
      cases hs : splitChar sep t with
      | nil => exact absurd hs ih
      | cons g gs => simp

theorem flatten_splitChar (sep : Char) :
    ∀ l, (splitChar sep l).flatten = l.filter fun ch => !(ch == sep) := by
  intro l
  induction l with
  | nil => rfl
  | cons a t ih =>
    unfold splitChar
    by_cases h : (a == sep) = true
    · rw [if_pos h]
      simp [List.filter_cons, h, ih]
    · rw [if_neg h]
      obtain ⟨g, gs, hg⟩ : ∃ g gs, splitChar sep t = g :: gs := by
        cases hs : splitChar sep t with
        | nil => exact absurd hs (splitChar_ne_nil sep t)
        | cons g gs => exact ⟨g, gs, rfl⟩
      rw [hg]
      have hflat : ((a :: g) :: gs).flatten = a :: (g :: gs).flatten := by simp
      rw [hflat, ← hg, ih]
      simp [List.filter_cons, h]

theorem splitChar_no_sep {sep : Char} : ∀ {xs : List Char},
    (∀ c ∈ xs, (c == sep) = false) → splitChar sep xs = [xs] := by
  intro xs
  induction xs with
  | nil => intro _; rfl
  | cons a t ih =>
    intro h
    unfold splitChar
    rw [if_neg (by simp [h a (by simp)])]
    rw [ih fun c hc => h c (by simp [hc])]

theorem splitChar_append_sep {sep : Char} : ∀ {xs : List Char} (ys : List Char),
    (∀ c ∈ xs, (c == sep) = false) →
    splitChar sep (xs ++ sep :: ys) = xs :: splitChar sep ys := by
  intro xs
  induction xs with
  | nil =>
    intro ys _
    show splitChar sep (sep :: ys) = [] :: splitChar sep ys
    conv_lhs => unfold splitChar
    rw [if_pos (by simp)]
  | cons a t ih =>
    intro ys h
    show splitChar sep (a :: (t ++ sep :: ys)) = (a :: t) :: splitChar sep ys
    conv_lhs => unfold splitChar
    rw [if_neg (by simp [h a (by simp)])]
    rw [ih ys fun c hc => h c (by simp [hc])]

/-! ## Round-trip lemmas: the export strings reparse to the same values -/

theorem isDigits_toDigits (n : Nat) : isDigits (Nat.toDigits 10 n) = true := by
  have h1 : (Nat.toDigits 10 n).isEmpty = false := by
    cases hi : (Nat.toDigits 10 n).isEmpty
    · rfl
    · exact absurd (List.isEmpty_iff.mp hi) (toDigits_ne_nil n)
  simp [isDigits, h1, List.all_eq_true.mpr (toDigits_all_digit n)]

theorem pyInt_intChars (q : Int) : pyInt (intChars q) = .ok q := by
  cases q with
  | ofNat m =>
    show pyInt (Nat.toDigits 10 m) = .ok (Int.ofNat m)
    rw [pyInt_digits (toDigits_ne_nil m) (toDigits_all_digit m), digitsVal_toDigits]
    rfl
  | negSucc m =>
    show pyInt ('-' :: Nat.toDigits 10 (m + 1)) = .ok (Int.negSucc m)
    unfold pyInt
    rw [stripWs_eq_self ?hws]
    case hws =>
      intro c hc
      rcases List.mem_cons.mp hc with h1 | h1
      · subst h1; decide
      · exact not_ws_of_isDigit (toDigits_all_digit (m + 1) c h1)
    show pyIntCore ('-' :: Nat.toDigits 10 (m + 1)) = .ok (Int.negSucc m)
    simp only [pyIntCore]
    rw [if_pos (by decide : (('-' : Char) == '-') = true), if_pos (isDigits_toDigits (m + 1)),
      digitsVal_toDigits]
    congr 1

/-- Value in cents carried by the exported price string: reparsing the
export through the program's own `clean_price` recovers the price exactly
when the cent amount does not end in 0 (otherwise the dropped trailing
zero divides it by 10 or 100 — see C3). -/
theorem clean_price_formatPrice {p : Int} (h10 : p.natAbs % 10 ≠ 0) :
    clean_price (formatPrice p) = .ok p := by
  have h100 : ¬ p.natAbs % 100 = 0 := by omega
  have hD := toDigits_all_digit (p.natAbs / 100)
  have hDne := toDigits_ne_nil (p.natAbs / 100)
  obtain ⟨a, b, hab, ha, hb, hval⟩ := pad2Chars_spec (Nat.mod_lt p.natAbs (by norm_num) :
    p.natAbs % 100 < 100)
  have hvalab : digitsVal [a, b] = p.natAbs % 100 := by rw [← hab]; exact hval
  have hpc : priceChars p.natAbs = Nat.toDigits 10 (p.natAbs / 100) ++ '.' :: [a, b] := by
    unfold priceChars
    rw [if_neg h100, if_neg h10, hab]
  have hDnodot : ∀ c ∈ Nat.toDigits 10 (p.natAbs / 100), (c == '.') = false :=
    fun c hc => beq_eq_false_of_isDigit '.' (hD c hc) (by decide)
  have hsplit : splitChar '.' (Nat.toDigits 10 (p.natAbs / 100) ++ '.' :: [a, b]) =
      [Nat.toDigits 10 (p.natAbs / 100), [a, b]] := by
    rw [splitChar_append_sep [a, b] hDnodot]
    rw [splitChar_no_sep (by
      intro c hc
      rcases List.mem_cons.mp hc with h1 | h1
      · subst h1; exact beq_eq_false_of_isDigit '.' ha (by decide)
      · rcases List.mem_cons.mp h1 with h2 | h2
        · subst h2; exact beq_eq_false_of_isDigit '.' hb (by decide)
        · exact absurd h2 (by simp))]
  have hdigsum : digitsVal (Nat.toDigits 10 (p.natAbs / 100) ++ [a, b]) = p.natAbs := by
    rw [digitsVal_append, digitsVal_toDigits, hvalab]
    show p.natAbs / 100 * 10 ^ 2 + p.natAbs % 100 = p.natAbs
    omega
  have hdigall : ∀ c ∈ Nat.toDigits 10 (p.natAbs / 100) ++ [a, b], c.isDigit = true := by
    intro c hc
    rcases List.mem_append.mp hc with h1 | h1
    · exact hD c h1
    · rcases List.mem_cons.mp h1 with h2 | h2
      · subst h2; exact ha
      · rcases List.mem_cons.mp h2 with h3 | h3
        · subst h3; exact hb
        · exact absurd h3 (by simp)
  have hdigne : Nat.toDigits 10 (p.natAbs / 100) ++ [a, b] ≠ [] := by
    simp
  unfold clean_price formatPrice
  by_cases hneg : p < 0
  · rw [if_pos hneg, data_asString]
    have hdrop : ('$' :: (['-'] ++ priceChars p.natAbs)).dropWhile (· == '$') =
        '-' :: priceChars p.natAbs := by
      simp [List.dropWhile_cons]
    rw [hdrop, hpc]
    have hsplit2 : splitChar '.' ('-' :: (Nat.toDigits 10 (p.natAbs / 100) ++ '.' :: [a, b])) =
        ('-' :: Nat.toDigits 10 (p.natAbs / 100)) :: [[a, b]] := by
      conv_lhs => unfold splitChar
      rw [if_neg (by decide)]
      rw [hsplit]
    rw [hsplit2]
    have hflat : (('-' :: Nat.toDigits 10 (p.natAbs / 100)) :: [[a, b]]).flatten =
        '-' :: (Nat.toDigits 10 (p.natAbs / 100) ++ [a, b]) := by
      simp
    rw [hflat]
    unfold pyInt
    rw [stripWs_eq_self (by
      intro c hc
      rcases List.mem_cons.mp hc with h1 | h1
      · subst h1; decide
      · exact not_ws_of_isDigit (hdigall c h1))]
    show pyIntCore ('-' :: (Nat.toDigits 10 (p.natAbs / 100) ++ [a, b])) = .ok p
    simp only [pyIntCore]
    rw [if_pos (by decide : (('-' : Char) == '-') = true),
      if_pos (by
        simp only [isDigits, Bool.and_eq_true, List.all_eq_true]
        constructor
        · simp
        · exact hdigall),
      hdigsum]
    congr 1
    omega
  · rw [if_neg hneg, data_asString]
    obtain ⟨c0, D0, hD0⟩ := List.exists_cons_of_ne_nil hDne
    have hc0 : c0.isDigit = true := hD c0 (by rw [hD0]; simp)
    have hdrop : ('$' :: ([] ++ priceChars p.natAbs)).dropWhile (· == '$') =
        priceChars p.natAbs := by
      simp only [List.nil_append, List.dropWhile_cons]
      rw [if_pos (by decide), hpc, hD0]
      simp only [List.cons_append, List.dropWhile_cons,
        beq_eq_false_of_isDigit '$' hc0 (by decide)]
      simp
    rw [hdrop, hpc, hsplit]
    have hflat : ([Nat.toDigits 10 (p.natAbs / 100), [a, b]]).flatten =
        Nat.toDigits 10 (p.natAbs / 100) ++ [a, b] := by
      simp
    rw [hflat, pyInt_digits hdigne hdigall, hdigsum]
    congr 1
    omega

theorem daysInMonth_le (y m : Nat) : daysInMonth y m ≤ 31 := by
  unfold daysInMonth
  split_ifs <;> norm_num

/-- Reparsing the exported `mm/dd/yyyy` date through the program's own
`clean_date` recovers the stored date, for any date `datetime` accepts. -/
theorem clean_date_formatDate {d : PyDate} (hv : validDate d) :
    clean_date (formatDate d) = .ok d := by
  obtain ⟨hy1, hy2, hm1, hm2, hd1, hd2⟩ := hv
  have hdim := daysInMonth_le d.year d.month
  obtain ⟨a, b, hab, ha, hb, hvalm⟩ := pad2Chars_spec (show d.month < 100 by omega)
  obtain ⟨c, e, hce, hc, he, hvald⟩ := pad2Chars_spec (show d.day < 100 by omega)
  have hmnodot : ∀ ch ∈ pad2Chars d.month, (ch == '/') = false := by
    rw [hab]
    intro ch hch
    rcases List.mem_cons.mp hch with h1 | h1
    · subst h1; exact beq_eq_false_of_isDigit '/' ha (by decide)
    · rcases List.mem_cons.mp h1 with h2 | h2
      · subst h2; exact beq_eq_false_of_isDigit '/' hb (by decide)
      · exact absurd h2 (by simp)
  have hdnodot : ∀ ch ∈ pad2Chars d.day, (ch == '/') = false := by
    rw [hce]
    intro ch hch
    rcases List.mem_cons.mp hch with h1 | h1
    · subst h1; exact beq_eq_false_of_isDigit '/' hc (by decide)
    · rcases List.mem_cons.mp h1 with h2 | h2
      · subst h2; exact beq_eq_false_of_isDigit '/' he (by decide)
      · exact absurd h2 (by simp)
  have hynodot : ∀ ch ∈ Nat.toDigits 10 d.year, (ch == '/') = false :=
    fun ch hch => beq_eq_false_of_isDigit '/' (toDigits_all_digit d.year ch hch) (by decide)
  have hsplit : splitChar '/' (pad2Chars d.month ++ '/' ::
      (pad2Chars d.day ++ '/' :: Nat.toDigits 10 d.year)) =
      [pad2Chars d.month, pad2Chars d.day, Nat.toDigits 10 d.year] := by
    rw [splitChar_append_sep _ hmnodot, splitChar_append_sep _ hdnodot,
      splitChar_no_sep hynodot]
  have hm : pyInt (pad2Chars d.month) = .ok (d.month : Int) := by
    rw [pyInt_digits (by rw [hab]; simp) (by
      rw [hab]
      intro ch hch
      rcases List.mem_cons.mp hch with h1 | h1
      · subst h1; exact ha
      · rcases List.mem_cons.mp h1 with h2 | h2
        · subst h2; exact hb
        · exact absurd h2 (by simp)), hvalm]
  have hdd : pyInt (pad2Chars d.day) = .ok (d.day : Int) := by
    rw [pyInt_digits (by rw [hce]; simp) (by
      rw [hce]
      intro ch hch
      rcases List.mem_cons.mp hch with h1 | h1
      · subst h1; exact hc
      · rcases List.mem_cons.mp h1 with h2 | h2
        · subst h2; exact he
        · exact absurd h2 (by simp)), hvald]
  have hy : pyInt (Nat.toDigits 10 d.year) = .ok (d.year : Int) := by
    rw [pyInt_digits (toDigits_ne_nil d.year) (toDigits_all_digit d.year), digitsVal_toDigits]
  unfold clean_date formatDate
  rw [data_asString]
  simp only [hsplit, List.getElem?_cons_zero, List.getElem?_cons_succ, hm, hdd, hy]
  unfold mkDatetime
  rw [if_pos (by
    refine ⟨by omega, by omega, by omega, by omega, by omega, ?_⟩
    have : ((d.year : Int)).toNat = d.year := by omega
    rw [this]
    have : ((d.month : Int)).toNat = d.month := by omega
    rw [this]
    omega)]
  congr 1

/-- Reparsing an exported data row recovers the record's name, price,
quantity and date. -/
theorem parseRow_backupRow (r : Product) (hp : r.product_price.natAbs % 10 ≠ 0)
    (hv : validDate r.date_updated) :
    parseRow (backupRow r) =
      .ok ⟨r.product_name, r.product_price, r.product_quantity, r.date_updated⟩ := by
  unfold parseRow backupRow
  simp only [List.getElem?_cons_zero, List.getElem?_cons_succ]
  have h2 : pyInt ((intChars r.product_quantity).asString).data = .ok r.product_quantity := by
    rw [data_asString]; exact pyInt_intChars _
  simp only [clean_price_formatPrice hp, h2, clean_date_formatDate hv]

theorem parseRows_backup_insertAll : ∀ (i : Nat) (prs : List Row4),
    (∀ p ∈ prs, p.price.natAbs % 10 ≠ 0) →
    (∀ p ∈ prs, validDate p.date) →
    parseRows ((insertAll i prs).map backupRow) = .ok prs := by
  intro i prs
  induction prs generalizing i with
  | nil => intro _ _; rfl
  | cons p t ih =>
    intro hp hv
    show parseRows (backupRow ⟨i, p.name, p.quantity, p.price, p.date⟩ ::
      (insertAll (i + 1) t).map backupRow) = .ok (p :: t)
    unfold parseRows
    rw [parseRow_backupRow _ (hp p (by simp)) (hv p (by simp))]
    rw [ih (i + 1) (fun q hq => hp q (by simp [hq])) (fun q hq => hv q (by simp [hq]))]

theorem insertAll_names : ∀ (i : Nat) (prs : List Row4),
    (insertAll i prs).map (fun r => r.product_name) = prs.map Row4.name := by
  intro i prs
  induction prs generalizing i with
  | nil => rfl
  | cons p t ih => simp [insertAll, ih]

/-! ## The reconciler on duplicate-free states -/

theorem dupLoop_id {db : List Product} : ∀ l, (∀ p ∈ l, dupQuery db p = []) →
    dupLoop db l = .ok db := by
  intro l
  induction l with
  | nil => intro _; rfl
  | cons p t ih =>
    intro h
    unfold dupLoop
    rw [dupStep_of_nil (h p (by simp))]
    exact ih fun q hq => h q (by simp [hq])

theorem check_duplicates_of_nodup_names {db : List Product}
    (h : (db.map fun r => r.product_name).Nodup) : check_duplicates db = .ok db := by
  unfold check_duplicates
  apply dupLoop_id
  intro p hp
  rw [List.eq_nil_iff_forall_not_mem]
  intro r hr
  rcases mem_dupQuery.mp hr with ⟨hrdb, hid, hname⟩
  exact hid (congrArg Product.product_id (List.inj_on_of_nodup_map h hrdb hp hname))

/-! ## Parsed rows carry datetime-valid dates -/

theorem mkDatetime_valid {y m dd : Int} {d : PyDate} (h : mkDatetime y m dd = .ok d) :
    validDate d := by
  unfold mkDatetime at h
  split at h
  · rename_i hcond
    cases h
    unfold validDate
    simp only
    generalize hD : daysInMonth y.toNat m.toNat = D at hcond ⊢
    omega
  · exact absurd h (by simp)

theorem clean_date_valid {s : String} {d : PyDate} (h : clean_date s = .ok d) :
    validDate d := by
  unfold clean_date at h
  split at h
  · split at h
    · exact mkDatetime_valid h
    · exact absurd h (by simp)
  · exact absurd h (by simp)

theorem parseRow_valid {row : List String} {p : Row4} (h : parseRow row = .ok p) :
    validDate p.date := by
  unfold parseRow at h
  split at h
  · split at h
    · rename_i hprice hqty hdate
      cases h
      exact clean_date_valid hdate
    · exact absurd h (by simp)
  · exact absurd h (by simp)

theorem parseRows_valid : ∀ {l : List (List String)} {prs : List Row4},
    parseRows l = .ok prs → ∀ p ∈ prs, validDate p.date := by
  intro l
  induction l with
  | nil =>
    intro prs h p hp
    cases h
    exact absurd hp (by simp)
  | cons r t ih =>
    intro prs h p hp
    unfold parseRows at h
    split at h
    · exact absurd h (by simp)
    · rename_i x hx
      split at h
      · exact absurd h (by simp)
      · rename_i xs hxs
        cases h
        rcases List.mem_cons.mp hp with h1 | h1
        · subst h1; exact parseRow_valid hx
        · exact ih hxs p h1

/-- C8: after stripping leading dollar signs, an input made of digit
groups separated by two or more decimal points does not make
`normalize_price` fail: all digit groups are concatenated and parsed as
one integer. -/
theorem claim_C8_multiple_decimal_points (s : String) (cs : List Char)
    (hstrip : s.data.dropWhile (· == '$') = cs)
    (_hdots : 2 ≤ cs.count '.')
    (hcontent : ∀ ch ∈ cs, ch.isDigit = true ∨ ch = '.')
    (hnonempty : cs.filter (fun ch => !(ch == '.')) ≠ []) :
    clean_price s = .ok (digitsVal (cs.filter fun ch => !(ch == '.')) : Int) := by
  unfold clean_price
  rw [hstrip, flatten_splitChar]
  apply pyInt_digits hnonempty
  intro c hc
  have hmf := List.mem_filter.mp hc
  rcases hcontent c hmf.1 with h | h
  · exact h
  · exfalso
    have := hmf.2
    rw [h] at this
    simp at this

/-- C8 witness: `1.2.3` concatenates to 123. -/
theorem claim_C8_witness : clean_price "1.2.3" = .ok 123 := by
  have h := claim_C8_multiple_decimal_points "1.2.3" ("1.2.3".data)
    rfl (by decide) (by decide) (by decide)
  exact h

/-- C9: when the input has more than three slash-separated components and
the first three parse as a valid month, day and year, `normalize_date`
succeeds with that date and silently ignores the extra components. -/
theorem claim_C9_extra_date_components (s : String) (a b c : List Char)
    (rest : List (List Char)) (m d y : Int) (dt : PyDate)
    (hsplit : splitChar '/' s.data = a :: b :: c :: rest)
    (_hextra : rest ≠ [])
    (hm : pyInt a = .ok m) (hd : pyInt b = .ok d) (hy : pyInt c = .ok y)
    (hmk : mkDatetime y m d = .ok dt) :
    clean_date s = .ok dt := by
  unfold clean_date
  simp only [hsplit, List.getElem?_cons_zero, List.getElem?_cons_succ, hm, hd, hy]
  exact hmk

/-- C9 witness: `1/2/2021/junk` parses as January 2, 2021. -/
theorem claim_C9_witness : clean_date "1/2/2021/junk" = .ok ⟨2021, 1, 2⟩ :=
  claim_C9_extra_date_components "1/2/2021/junk"
    ['1'] ['2'] ['2', '0', '2', '1'] [['j', 'u', 'n', 'k']] 1 2 2021 ⟨2021, 1, 2⟩
    rfl (by simp) rfl rfl rfl rfl

/-! ## Claim theorems: import abort -/

theorem parseRows_error_of_mem : ∀ {l : List (List String)} {r : List String},
    r ∈ l → parseRow r = .error () → parseRows l = .error () := by
  intro l
  induction l with
  | nil => intro r hr _; exact absurd hr (by simp)
  | cons a l ih =>
    intro r hr herr
    unfold parseRows
    rcases List.mem_cons.mp hr with h | h
    · subst h
      rw [herr]
    · cases hpa : parseRow a with
      | error e => cases e; rfl
      | ok x => rw [ih h herr]

/-- C7: a data row whose fields fail to normalize aborts the whole import
before any commit: the persistent store is returned unchanged with the
error. -/
theorem claim_C7_import_all_or_nothing (db : List Product) (rows : List (List String))
    (hbad : ∃ r ∈ rows.drop 1, parseRow r = .error ()) :
    add_csv db rows = (db, .error ()) := by
  obtain ⟨r, hr, herr⟩ := hbad
  unfold add_csv
  rw [parseRows_error_of_mem hr herr]

/-- C7 witness: one bad price aborts the import of a one-row file, leaving
the empty store empty. -/
theorem claim_C7_witness :
    add_csv [] [["h"], ["A", "abc", "1", "1/1/2021"]] = ([], .error ()) :=
  claim_C7_import_all_or_nothing [] _ ⟨["A", "abc", "1", "1/1/2021"], by simp, rfl⟩

/-! ## Claim theorems: interactive upsert -/

/-- C6 counterexample: the claim quantifies over every store state, but
when two records already carry the entered name (a reachable
pre-reconciliation state), `one_or_none()` raises `MultipleResultsFound`
and no record is updated at all. -/
theorem claim_C6_counterexample :
    add_product [⟨1, "A", 1, 100, ⟨2021, 1, 1⟩⟩, ⟨2, "A", 2, 200, ⟨2021, 1, 2⟩⟩]
      "A" 5 500 ⟨2021, 2, 1⟩ = .error () :=
  rfl

/-- C6 (amended): when exactly one stored record carries the entered name
(and primary keys are distinct), the interactive add updates that record's
quantity, price and timestamp in place on the same id, creates no record,
and leaves the total count unchanged. -/
theorem claim_C6_upsert_in_place (db : List Product) (n : String) (q pr : Int)
    (now : PyDate) (d : Product)
    (hids : (db.map fun r => r.product_id).Nodup)
    (hone : db.filter (fun r => decide (r.product_name = n)) = [d]) :
    ∃ db', add_product db n q pr now = .ok db' ∧
      db'.length = db.length ∧
      (⟨d.product_id, d.product_name, q, pr, now⟩ : Product) ∈ db' ∧
      (∀ r ∈ db', r.product_id = d.product_id →
        r = ⟨d.product_id, d.product_name, q, pr, now⟩) ∧
      (∀ r ∈ db', r.product_id ≠ d.product_id → r ∈ db) := by
  have hd_mem : d ∈ db := by
    have : d ∈ db.filter (fun r => decide (r.product_name = n)) := by
      rw [hone]; simp
    exact (List.mem_filter.mp this).1
  refine ⟨db.map (fun r => if r.product_id = d.product_id then
      { r with product_quantity := q, product_price := pr, date_updated := now }
    else r), ?_, by simp, ?_, ?_, ?_⟩
  · unfold add_product
    rw [hone]
  · refine List.mem_map.mpr ⟨d, hd_mem, ?_⟩
    rw [if_pos rfl]
  · intro r hr hid
    rcases List.mem_map.mp hr with ⟨r0, hr0, hmap⟩
    by_cases h : r0.product_id = d.product_id
    · have hr0d : r0 = d := List.inj_on_of_nodup_map hids hr0 hd_mem h
      subst hr0d
      rw [if_pos h] at hmap
      rw [← hmap]
    · rw [if_neg h] at hmap
      exact absurd (hmap ▸ hid) h
  · intro r hr hid
    rcases List.mem_map.mp hr with ⟨r0, hr0, hmap⟩
    by_cases h : r0.product_id = d.product_id
    · rw [if_pos h] at hmap
      exfalso
      apply hid
      rw [← hmap]
      exact h
    · rw [if_neg h] at hmap
      exact hmap ▸ hr0

/-- C6 witness: a singleton store updated in place. -/
theorem claim_C6_witness :
    ∃ db', add_product [⟨1, "A", 1, 100, ⟨2021, 1, 1⟩⟩] "A" 5 500 ⟨2021, 2, 1⟩ = .ok db' ∧
      db'.length = ([⟨1, "A", 1, 100, ⟨2021, 1, 1⟩⟩] : List Product).length ∧
      (⟨1, "A", 5, 500, ⟨2021, 2, 1⟩⟩ : Product) ∈ db' ∧
      (∀ r ∈ db', r.product_id = 1 → r = ⟨1, "A", 5, 500, ⟨2021, 2, 1⟩⟩) ∧
      (∀ r ∈ db', r.product_id ≠ 1 → r ∈ [⟨1, "A", 1, 100, ⟨2021, 1, 1⟩⟩]) :=
  claim_C6_upsert_in_place [⟨1, "A", 1, 100, ⟨2021, 1, 1⟩⟩] "A" 5 500 ⟨2021, 2, 1⟩
    ⟨1, "A", 1, 100, ⟨2021, 1, 1⟩⟩ (by decide) (by rfl)

/-! ## Claim theorems: export formatting -/

/-- C3 counterexample: a record priced at 500 cents is exported as
`$5.0` — one fractional digit, not the claimed `$D.DD` — because the
source formats the price with float division (`f'${price / 100}'`), whose
shortest repr drops the trailing zero. -/
theorem claim_C3_counterexample :
    (backupRow ⟨1, "A", 1, 500, ⟨2021, 1, 2⟩⟩)[1]? = some "$5.0" ∧
      isDollarDD "$5.0" = false :=
  ⟨rfl, rfl⟩

/-- C3 (amended): for a stored record whose nonnegative price in cents is
at most `10 ^ 13` (the range where float formatting is exact, see
`priceChars`) and not a multiple of 10, the exported price has the
`$D.DD` shape, and for an in-range date the exported date is zero-padded
`mm/dd/yyyy` with a four-digit year.  (Prices that are multiples of 10
lose trailing zeros, prices beyond the bound lose float precision or go
scientific, and the claimed unpadded `m/d/yyyy` is actually written
zero-padded.) -/
theorem claim_C3_export_formats (r : Product)
    (hp0 : 0 ≤ r.product_price) (_hpb : r.product_price ≤ 10 ^ 13)
    (hp10 : r.product_price.natAbs % 10 ≠ 0)
    (hm1 : 1 ≤ r.date_updated.month) (hm2 : r.date_updated.month ≤ 12)
    (hd1 : 1 ≤ r.date_updated.day) (hd2 : r.date_updated.day ≤ 31)
    (hy1 : 1000 ≤ r.date_updated.year) (hy2 : r.date_updated.year ≤ 9999) :
    (backupRow r)[1]? = some (formatPrice r.product_price) ∧
      isDollarDD (formatPrice r.product_price) = true ∧
      (backupRow r)[3]? = some (formatDate r.date_updated) ∧
      isDateMMDDYYYY (formatDate r.date_updated) = true :=
  ⟨rfl, isDollarDD_formatPrice hp0 hp10, rfl,
    isDate_formatDate hm1 hm2 hd1 hd2 hy1 hy2⟩

/-- C2 counterexample: a CSV whose data rows all parse but which repeats
the name `A` (and prices `$1.00`, `$2.00`, `$1.10`, all multiples of 10
cents).  Importing into an empty store then exporting does not reproduce
the input multiset of (name, price, quantity) triples: reconciliation
deletes the older `A` row, and the trailing-zero prices come back divided
by 10 or 100. -/
theorem claim_C2_counterexample :
    parseRows ([["A", "$1.00", "1", "1/1/2021"], ["A", "$2.00", "2", "1/2/2021"],
        ["B", "$1.10", "1", "1/3/2021"]]) =
      .ok [⟨"A", 100, 1, ⟨2021, 1, 1⟩⟩, ⟨"A", 200, 2, ⟨2021, 1, 2⟩⟩,
        ⟨"B", 110, 1, ⟨2021, 1, 3⟩⟩] ∧
    (add_csv [] [["h"], ["A", "$1.00", "1", "1/1/2021"], ["A", "$2.00", "2", "1/2/2021"],
        ["B", "$1.10", "1", "1/3/2021"]]).2 = .ok () ∧
    parseRows ((backup_db (add_csv [] [["h"], ["A", "$1.00", "1", "1/1/2021"],
        ["A", "$2.00", "2", "1/2/2021"], ["B", "$1.10", "1", "1/3/2021"]]).1).drop 1) =
      .ok [⟨"A", 20, 2, ⟨2021, 1, 2⟩⟩, ⟨"B", 11, 1, ⟨2021, 1, 3⟩⟩] ∧
    ¬ ((↑([(⟨"A", 20, 2, ⟨2021, 1, 2⟩⟩ : Row4), ⟨"B", 11, 1, ⟨2021, 1, 3⟩⟩].map tripleOfRow) :
          Multiset (String × Int × Int)) =
        ↑([(⟨"A", 100, 1, ⟨2021, 1, 1⟩⟩ : Row4), ⟨"A", 200, 2, ⟨2021, 1, 2⟩⟩,
          ⟨"B", 110, 1, ⟨2021, 1, 3⟩⟩].map tripleOfRow)) := by
  refine ⟨rfl, rfl, rfl, ?_⟩
  intro hEq
  have hcard := congrArg Multiset.card hEq
  simp at hcard

/-- C2 (amended): for a CSV whose data rows parse, whose names are
pairwise distinct, and whose prices in cents are at most `10 ^ 13` in
magnitude (the range where float formatting is exact, see `priceChars`)
and not multiples of 10, importing into an empty store and then exporting
reproduces exactly the same multiset of (name, price-in-cents, quantity)
triples, the exported rows being reparsed by the program's own
normalizers. -/
theorem claim_C2_roundtrip (rows : List (List String)) (prs : List Row4)
    (hparse : parseRows (rows.drop 1) = .ok prs)
    (hnames : (prs.map Row4.name).Nodup)
    (_hbound : ∀ p ∈ prs, p.price.natAbs ≤ 10 ^ 13)
    (hprice : ∀ p ∈ prs, p.price.natAbs % 10 ≠ 0) :
    (add_csv [] rows).2 = .ok () ∧
    ∃ outRows, parseRows ((backup_db (add_csv [] rows).1).drop 1) = .ok outRows ∧
      (↑(outRows.map tripleOfRow) : Multiset (String × Int × Int)) =
        ↑(prs.map tripleOfRow) := by
  have hvalid : ∀ p ∈ prs, validDate p.date := parseRows_valid hparse
  have hnames2 : ((insertAll 1 prs).map fun r => r.product_name).Nodup := by
    rw [insertAll_names]; exact hnames
  have hcd := check_duplicates_of_nodup_names hnames2
  have hadd : add_csv [] rows = (insertAll 1 prs, .ok ()) := by
    unfold add_csv
    simp only [hparse, List.nil_append, maxId, List.foldr_nil, Nat.zero_add]
    rw [hcd]
  rw [hadd]
  refine ⟨rfl, prs, ?_, rfl⟩
  show parseRows ((insertAll 1 prs).map backupRow) = .ok prs
  exact parseRows_backup_insertAll 1 prs hprice hvalid

/-- C2 witness: the spec's end-to-end example row. -/
theorem claim_C2_witness :
    (add_csv [] [["h"], ["Widget", "$9.99", "5", "1/1/2022"]]).2 = .ok () ∧
    ∃ outRows, parseRows ((backup_db (add_csv [] [["h"],
        ["Widget", "$9.99", "5", "1/1/2022"]]).1).drop 1) = .ok outRows ∧
      (↑(outRows.map tripleOfRow) : Multiset (String × Int × Int)) =
        ↑([(⟨"Widget", 999, 5, ⟨2022, 1, 1⟩⟩ : Row4)].map tripleOfRow) :=
  claim_C2_roundtrip _ [⟨"Widget", 999, 5, ⟨2022, 1, 1⟩⟩] rfl (by decide) (by norm_num)
    (by decide)

/-- C3 witness: the record priced 1999 cents from the spec's example. -/
theorem claim_C3_witness :
    (backupRow ⟨1, "A", 1, 1999, ⟨2021, 1, 2⟩⟩)[1]? =
        some (formatPrice (1999 : Int)) ∧
      isDollarDD (formatPrice (1999 : Int)) = true ∧
      (backupRow ⟨1, "A", 1, 1999, ⟨2021, 1, 2⟩⟩)[3]? =
        some (formatDate ⟨2021, 1, 2⟩) ∧
      isDateMMDDYYYY (formatDate ⟨2021, 1, 2⟩) = true :=
  claim_C3_export_formats ⟨1, "A", 1, 1999, ⟨2021, 1, 2⟩⟩
    (by decide) (by norm_num) (by decide) (by decide) (by decide) (by decide)
    (by decide) (by decide) (by decide)

end StoreInventory
